import Mathlib

/-!
Shallow embedding of the fvd-rs track-dynamics library (src/constants.rs,
src/math.rs, src/transitions.rs, src/track.rs, src/lib.rs) over the real
numbers, together with theorems settling the frozen claims about it.

Rust `f64` values are modelled as `ℝ`; `Option` models Rust `Option` as well
as panics coming from `.unwrap()` (a `none` result of an embedded function
marks the place where the Rust program aborts).  Loops are modelled as
well-founded recursive functions whose measure mirrors the loop variable.
-/

set_option maxHeartbeats 1000000
set_option maxRecDepth 2000

noncomputable section

namespace Fvd

/-- Real 3-vector, modelling glam's `DVec3`. -/
structure Vec3 where
  x : ℝ
  y : ℝ
  z : ℝ

def Vec3.add (a b : Vec3) : Vec3 := ⟨a.x + b.x, a.y + b.y, a.z + b.z⟩

def Vec3.sub (a b : Vec3) : Vec3 := ⟨a.x - b.x, a.y - b.y, a.z - b.z⟩

/-- Scalar multiple of a vector (`v * c` in glam). -/
def Vec3.smul (c : ℝ) (a : Vec3) : Vec3 := ⟨c * a.x, c * a.y, c * a.z⟩

def Vec3.dot (a b : Vec3) : ℝ := a.x * b.x + a.y * b.y + a.z * b.z

def Vec3.cross (a b : Vec3) : Vec3 :=
  ⟨a.y * b.z - a.z * b.y, a.z * b.x - a.x * b.z, a.x * b.y - a.y * b.x⟩

/-- Euclidean norm, `DVec3::length`. -/
def Vec3.length (a : Vec3) : ℝ := Real.sqrt (a.dot a)

def vec3Y : Vec3 := ⟨0, 1, 0⟩

def vec3Z : Vec3 := ⟨0, 0, 1⟩

def vec3NegX : Vec3 := ⟨-1, 0, 0⟩

def vec3NegY : Vec3 := ⟨0, -1, 0⟩

/-- `constants::G`. -/
def gConst : ℝ := 9.80665

/-- `constants::DT` (1/1000 s). -/
def dtConst : ℝ := 1 / 1000

/-- `constants::EPSILON`. -/
def epsilonConst : ℝ := 0.00001

/-- Quaternion with real components, modelling glam's `DQuat`. -/
structure Quat where
  w : ℝ
  x : ℝ
  y : ℝ
  z : ℝ

def Quat.identity : Quat := ⟨1, 0, 0, 0⟩

/-- Hamilton product, glam's `DQuat * DQuat`. -/
def Quat.mul (a b : Quat) : Quat :=
  ⟨a.w * b.w - a.x * b.x - a.y * b.y - a.z * b.z,
   a.w * b.x + a.x * b.w + a.y * b.z - a.z * b.y,
   a.w * b.y - a.x * b.z + a.y * b.w + a.z * b.x,
   a.w * b.z + a.x * b.y - a.y * b.x + a.z * b.w⟩

/-- glam's `DQuat::from_axis_angle` (axis assumed unit length). -/
def Quat.fromAxisAngle (axis : Vec3) (angle : ℝ) : Quat :=
  ⟨Real.cos (angle / 2), axis.x * Real.sin (angle / 2),
   axis.y * Real.sin (angle / 2), axis.z * Real.sin (angle / 2)⟩

/-- glam's `DQuat * DVec3` rotation:
`v*(w² - |b|²) + b*(2 (v·b)) + (b×v)*(2w)` with `b` the vector part. -/
def Quat.mulVec3 (q : Quat) (v : Vec3) : Vec3 :=
  let b : Vec3 := ⟨q.x, q.y, q.z⟩
  let b2 := b.dot b
  (Vec3.smul (q.w * q.w - b2) v).add
    ((Vec3.smul (2 * (v.dot b)) b).add (Vec3.smul (2 * q.w) (b.cross v)))

/-- `f64::to_radians`. -/
def toRadians (x : ℝ) : ℝ := x * Real.pi / 180

/-- `f64::to_degrees`. -/
def toDegrees (x : ℝ) : ℝ := x * 180 / Real.pi

/-- The five easing shapes of `transitions::TransitionCurve`. -/
inductive TransitionCurve where
  | linear
  | quadratic
  | cubic
  | plateau
  | quarticBump

/-- `TransitionCurve::eval`: clamp `t` to `[0,1]`, then apply the shape. -/
def TransitionCurve.eval (c : TransitionCurve) (t0 : ℝ) : ℝ :=
  let t := max 0 (min t0 1)
  match c with
  | .linear => t
  | .cubic =>
      if t < 1 / 2 then 4 * t * t * t
      else 1 - Real.rpow (-2 * t + 2) 3 / 2
  | .quadratic =>
      if t < 1 / 2 then 2 * t * t
      else 1 - Real.rpow (-2 * t + 2) 2 / 2
  | .plateau => 1 - Real.exp (-15 * (1 - |2 * t - 1|) ^ 3)
  | .quarticBump => t * t * (16 + t * (-32 + t * 16))

/-- `transitions::timewarp_center`. -/
def timewarpCenter (t center : ℝ) : ℝ :=
  if |center| < 0.01 then t
  else if center > 0 then Real.rpow t (Real.rpow 2 (center / 2))
  else 1 - Real.rpow (1 - t) (Real.rpow 2 (-center / 2))

/-- `transitions::timewarp_tension`. -/
def timewarpTension (t tension : ℝ) : ℝ :=
  if |tension| < 0.01 then t
  else if tension > 0 then
    1 / 2 * (Real.sinh (2 * tension * (t - 1 / 2)) / Real.sinh tension + 1)
  else
    1 / 2 * (Real.arsinh (2 * Real.sinh tension * (t - 1 / 2)) / tension + 1)

/-- `transitions::timewarp`. -/
def timewarp (t center tension : ℝ) : ℝ :=
  timewarpTension (timewarpCenter t center) tension

/-- `TransitionCurve::eval_timewarp`. -/
def TransitionCurve.evalTimewarp (c : TransitionCurve) (t center tension : ℝ) : ℝ :=
  c.eval (timewarp t center tension)

/-- One easing segment, `transitions::Transition`. -/
structure Transition where
  curve : TransitionCurve
  value : ℝ
  length : ℝ
  center : ℝ
  tension : ℝ

/-- `transitions::Forces`. -/
structure Forces where
  vert : ℝ
  lat : ℝ
  roll : ℝ

def Forces.add (a b : Forces) : Forces := ⟨a.vert + b.vert, a.lat + b.lat, a.roll + b.roll⟩

def Forces.sub (a b : Forces) : Forces := ⟨a.vert - b.vert, a.lat - b.lat, a.roll - b.roll⟩

/-- `transitions::Transitions`: one segment list per channel. -/
structure Transitions where
  vert : List Transition
  lat : List Transition
  roll : List Transition

/-- Sum of the segment lengths of one channel. -/
def sumLengths (l : List Transition) : ℝ := (l.map (fun tr => tr.length)).sum

/-- `Transitions::length`: minimum of the three channel totals. -/
def Transitions.length (ts : Transitions) : ℝ :=
  min (min (sumLengths ts.vert) (sumLengths ts.lat)) (sumLengths ts.roll)

/-- Loop body of `Transitions::evaluate_single`: walk the segments
accumulating elapsed time and terminal values, stopping at the first
segment whose interval contains `time`. -/
def evalSingleGo (l : List Transition) (time timeAccum value : ℝ) : ℝ :=
  match l with
  | [] => value
  | tr :: rest =>
      if timeAccum ≤ time ∧ time ≤ timeAccum + tr.length then
        value + tr.curve.evalTimewarp ((time - timeAccum) / tr.length) tr.center tr.tension
          * tr.value
      else
        evalSingleGo rest time (timeAccum + tr.length) (value + tr.value * tr.curve.eval 1)

/-- `Transitions::evaluate_single`. -/
def evaluateSingle (l : List Transition) (time : ℝ) : Option ℝ :=
  if time < 0 then none else some (evalSingleGo l time 0 0)

/-- `Transitions::evaluate`. -/
def Transitions.evaluate (ts : Transitions) (time : ℝ) : Option Forces :=
  if time < 0 then none
  else
    (evaluateSingle ts.vert time).bind fun vert =>
      (evaluateSingle ts.lat time).bind fun lat =>
        (evaluateSingle ts.roll time).map fun roll => ⟨vert, lat, roll⟩

/-- Sum of the terminal values `value * eval(1)` of a channel's segments. -/
def termSum (l : List Transition) : ℝ :=
  (l.map (fun tr => tr.value * tr.curve.eval 1)).sum

/-- `transitions::AbsoluteTransition` (absolute-form segment of the fast
evaluator). -/
structure AbsoluteTransition where
  curve : TransitionCurve
  value : ℝ
  startValue : ℝ
  start : ℝ
  length : ℝ
  center : ℝ
  tension : ℝ

/-- Per-channel precomputation loop of `FastTransitions::new`. -/
def toAbsoluteGo (l : List Transition) (timeAccum valueAccum : ℝ) : List AbsoluteTransition :=
  match l with
  | [] => []
  | tr :: rest =>
      ⟨tr.curve, tr.value, valueAccum, timeAccum, tr.length, tr.center, tr.tension⟩ ::
        toAbsoluteGo rest (timeAccum + tr.length) (valueAccum + tr.value * tr.curve.eval 1)

/-- `transitions::FastTransitions`. -/
structure FastTransitions where
  vert : List AbsoluteTransition
  lat : List AbsoluteTransition
  roll : List AbsoluteTransition
  length : ℝ

/-- `FastTransitions::new`. -/
def FastTransitions.new (ts : Transitions) : FastTransitions :=
  ⟨toAbsoluteGo ts.vert 0 0, toAbsoluteGo ts.lat 0 0, toAbsoluteGo ts.roll 0 0, ts.length⟩

/-- Out-of-bounds default for list indexing inside the binary search (the
Rust code only ever indexes in bounds). -/
def dfltAbs : AbsoluteTransition := ⟨.linear, 0, 0, 0, 0, 0, 0⟩

/-- Binary-search loop of `transitions::find_range_index`. -/
def findRangeGo (arr : List AbsoluteTransition) (target : ℝ) (low high : ℕ) : ℕ :=
  if low < high then
    let mid := (low + high) / 2
    if (arr.getD mid dfltAbs).start ≤ target then findRangeGo arr target (mid + 1) high
    else findRangeGo arr target low mid
  else low
termination_by high - low
decreasing_by
  all_goals omega

/-- `transitions::find_range_index`: binary search result clamped to
`[0, len - 1]`. -/
def findRangeIndex (arr : List AbsoluteTransition) (target : ℝ) : ℕ :=
  min (findRangeGo arr target 0 arr.length) (arr.length - 1)

/-- `FastTransitions::evaluate_single`. -/
def FastTransitions.evaluateSingle (ft : FastTransitions)
    (arr : List AbsoluteTransition) (time : ℝ) : Option ℝ :=
  if time < 0 ∨ time ≥ ft.length then none
  else
    let idx := findRangeIndex arr time
    let tr := arr.getD idx dfltAbs
    let timeRelative := time - tr.start
    some (tr.startValue +
      tr.value * tr.curve.evalTimewarp (timeRelative / tr.length) tr.center tr.tension)

/-- `FastTransitions::evaluate`. -/
def FastTransitions.evaluate (ft : FastTransitions) (time : ℝ) : Option Forces :=
  if time < 0 ∨ time ≥ ft.length then none
  else
    (ft.evaluateSingle ft.vert time).bind fun vert =>
      (ft.evaluateSingle ft.lat time).bind fun lat =>
        (ft.evaluateSingle ft.roll time).map fun roll => ⟨vert, lat, roll⟩

/-- Two-argument arctangent, modelling `f64::atan2` (principal value in
`(-π, π]`, with `atan2 0 0 = 0`). -/
def atan2 (y x : ℝ) : ℝ :=
  if 0 < x then Real.arctan (y / x)
  else if x < 0 then
    if 0 ≤ y then Real.arctan (y / x) + Real.pi else Real.arctan (y / x) - Real.pi
  else
    if 0 < y then Real.pi / 2 else if y < 0 then -(Real.pi / 2) else 0

/-- First normalisation loop of `math::deg_diff`:
`while diff < -180.0 { diff += 360.0 }`. -/
def degDiffUp (d : ℝ) : ℝ :=
  if h : d < -180 then degDiffUp (d + 360) else d
termination_by (⌈(-180 - d) / 360⌉).toNat
decreasing_by
  have hx : 0 < (-180 - d) / 360 := div_pos (by linarith) (by norm_num)
  have he : (-180 - (d + 360)) / 360 = (-180 - d) / 360 - 1 := by ring
  have h1 : (1 : ℤ) ≤ ⌈(-180 - d) / 360⌉ := Int.ceil_pos.mpr hx
  have h2 : ⌈(-180 - d) / 360 - 1⌉ = ⌈(-180 - d) / 360⌉ - 1 := by
    exact_mod_cast Int.ceil_sub_int ((-180 - d) / 360) 1
  rw [he]
  omega

/-- Second normalisation loop of `math::deg_diff`:
`while diff > 180.0 { diff -= 360.0 }`. -/
def degDiffDown (d : ℝ) : ℝ :=
  if h : d > 180 then degDiffDown (d - 360) else d
termination_by (⌈(d - 180) / 360⌉).toNat
decreasing_by
  have hx : 0 < (d - 180) / 360 := div_pos (by linarith) (by norm_num)
  have he : (d - 360 - 180) / 360 = (d - 180) / 360 - 1 := by ring
  have h1 : (1 : ℤ) ≤ ⌈(d - 180) / 360⌉ := Int.ceil_pos.mpr hx
  have h2 : ⌈(d - 180) / 360 - 1⌉ = ⌈(d - 180) / 360⌉ - 1 := by
    exact_mod_cast Int.ceil_sub_int ((d - 180) / 360) 1
  rw [he]
  omega

/-- `math::deg_diff`: `b - a` wrapped into range by the two loops. -/
def degDiff (a b : ℝ) : ℝ := degDiffDown (degDiffUp (b - a))

/-- Fuel-counted version of the first `deg_diff` loop: `none` means the
fuel ran out before the loop condition became false. -/
def degDiffUpFuel : ℕ → ℝ → Option ℝ
  | 0, _ => none
  | n + 1, d => if d < -180 then degDiffUpFuel n (d + 360) else some d

/-- Fuel-counted version of the second `deg_diff` loop. -/
def degDiffDownFuel : ℕ → ℝ → Option ℝ
  | 0, _ => none
  | n + 1, d => if d > 180 then degDiffDownFuel n (d - 360) else some d

/-- `TrackPoint` of `lib.rs` (a PathPoint). -/
structure TrackPoint where
  pos : Vec3
  rot : Quat
  velocity : ℝ
  time : ℝ

/-- `math::euler`: yaw/pitch/roll in degrees from a point's orientation. -/
def euler (p : TrackPoint) : ℝ × ℝ × ℝ :=
  let dir := p.rot.mulVec3 vec3Z
  let yaw := atan2 (-dir.x) (-dir.z)
  let pitch := atan2 dir.y (Real.sqrt (dir.x * dir.x + dir.z * dir.z))
  let upDir := p.rot.mulVec3 vec3Y
  let rightDir := p.rot.mulVec3 vec3NegX
  let roll := atan2 (-rightDir.y) upDir.y
  (toDegrees yaw, toDegrees pitch, toDegrees roll)

/-- `TrackSpline` of `lib.rs`. -/
structure TrackSpline where
  points : List TrackPoint

/-- Loop of `TrackSpline::eval_closest`, threading the previous point and
the accumulated polyline distance. -/
def evalClosestGo (prev : TrackPoint) (rest : List TrackPoint) (totalDist distance : ℝ) :
    Option (TrackPoint × TrackPoint) :=
  match rest with
  | [] => none
  | q :: rest' =>
      let d := (q.pos.sub prev.pos).length
      if totalDist + d ≥ distance then some (prev, q)
      else evalClosestGo q rest' (totalDist + d) distance

/-- `TrackSpline::eval_closest`. -/
def TrackSpline.evalClosest (s : TrackSpline) (distance : ℝ) :
    Option (TrackPoint × TrackPoint) :=
  match s.points with
  | [] => none
  | p :: rest => evalClosestGo p rest 0 distance

/-- `TrackSpline::forces` (Force Derivation, lib.rs). -/
def TrackSpline.forces (s : TrackSpline) (pos : ℝ) : Option Forces :=
  match s.evalClosest pos with
  | none => none
  | some (lastPoint, point) =>
      let deltaDist := (point.pos.sub lastPoint.pos).length
      let e1 := euler lastPoint
      let e2 := euler point
      let lastYaw := e1.1
      let lastPitch := e1.2.1
      let yaw := e2.1
      let pitch := e2.2.1
      let roll := e2.2.2
      let pitchFromLast := toRadians (degDiff lastPitch pitch)
      let yawFromLast := toRadians (degDiff lastYaw yaw)
      let temp := Real.cos (toRadians |pitch|)
      let normalDAngle := pitchFromLast * Real.cos (toRadians (-roll)) -
        temp * (-yawFromLast) * Real.sin (toRadians (-roll))
      let lateralDAngle := -pitchFromLast * Real.sin (toRadians roll) -
        temp * yawFromLast * Real.cos (toRadians roll)
      let forceVec := vec3Y.add
        ((Vec3.smul (point.velocity * point.velocity / (deltaDist / normalDAngle) / gConst)
            (point.rot.mulVec3 vec3Y)).add
          (Vec3.smul (point.velocity * point.velocity / (deltaDist / lateralDAngle) / gConst)
            (point.rot.mulVec3 vec3NegX)))
      some ⟨forceVec.dot (point.rot.mulVec3 vec3Y),
        forceVec.dot (point.rot.mulVec3 vec3NegX), 0⟩

/-- Sum of consecutive-point distances of a point list. -/
def distGo : List TrackPoint → ℝ
  | p :: q :: rest => (q.pos.sub p.pos).length + distGo (q :: rest)
  | _ => 0

/-- `TrackSpline::total_distance`. -/
def TrackSpline.totalDistance (s : TrackSpline) : ℝ := distGo s.points

/-- `track::TrackConfig`. -/
structure TrackConfig where
  parameter : ℝ
  resistance : ℝ
  heartlineHeight : ℝ

/-- `track::TrackSection`. -/
inductive TrackSection where
  | straight (length : ℝ) (fixedSpeed : Option ℝ)
  | force (fixedSpeed : Option ℝ) (transitions : Transitions)
  | curved (fixedSpeed : Option ℝ) (radius : ℝ) (direction : ℝ) (angle : ℝ)

/-- `track::Track`. -/
structure Track where
  sections : List TrackSection
  config : TrackConfig
  anchor : TrackPoint

/-- Energy remaining in `track::track_friction` after drag and the
potential / rolling-resistance term (the quantity the function compares
against 0 and feeds to the square root). -/
def remEnergy (parameter resistance heartlineHeight : ℝ)
    (lastPoint point : TrackPoint) (dt : ℝ) : ℝ :=
  let trackPosFriction :=
    point.pos.add (point.rot.mulVec3 (Vec3.smul 0.9 (Vec3.smul heartlineHeight vec3NegY)))
  let lastTrackPosFriction :=
    lastPoint.pos.add
      (lastPoint.rot.mulVec3 (Vec3.smul 0.9 (Vec3.smul heartlineHeight vec3NegY)))
  let energy := 0.5 * lastPoint.velocity * lastPoint.velocity -
    lastPoint.velocity * lastPoint.velocity * lastPoint.velocity * dt * resistance
  energy -
    (trackPosFriction.y - lastTrackPosFriction.y +
        (trackPosFriction.sub lastTrackPosFriction).length * parameter) * gConst

/-- `track::track_friction`. -/
def trackFriction (parameter resistance heartlineHeight : ℝ)
    (lastPoint point : TrackPoint) (dt : ℝ) : ℝ :=
  if remEnergy parameter resistance heartlineHeight lastPoint point dt ≤ 0 then 0
  else Real.sqrt (2 * remEnergy parameter resistance heartlineHeight lastPoint point dt)

/-- Loop of the `Straight` arm of `Track::make_spline`.  `prev` threads the
previously pushed point (`spline.points.last()`), `p` is the accumulated
distance. -/
def straightGo (config : TrackConfig) (start : TrackPoint) (length : ℝ)
    (fixedSpeed : Option ℝ) (prev : Option TrackPoint) (p : ℝ) (pos : Vec3)
    (velocity : ℝ) : List TrackPoint :=
  if h : p < length then
    let pos' := (start.rot.mulVec3 (Vec3.smul 0.01 vec3Z)).add pos
    match fixedSpeed with
    | some fs =>
        let pt : TrackPoint := ⟨pos', start.rot, fs, p / fs + start.time⟩
        pt :: straightGo config start length fixedSpeed (some pt) (p + 0.01) pos' fs
    | none =>
        let dt := 0.01 / velocity
        let point : TrackPoint := ⟨pos', start.rot, velocity, p / velocity + start.time⟩
        let velocity' := trackFriction config.parameter config.resistance
          config.heartlineHeight (prev.getD point) point dt
        if velocity' ≤ 0 then []
        else
          let pt : TrackPoint := ⟨pos', start.rot, velocity', p / velocity' + start.time⟩
          pt :: straightGo config start length fixedSpeed (some pt) (p + 0.01) pos' velocity'
  else []
termination_by (⌈(length - p) / (0.01 : ℝ)⌉).toNat
decreasing_by
  all_goals
    have hx : 0 < (length - p) / (0.01 : ℝ) := div_pos (by linarith) (by norm_num)
    have he : (length - (p + 0.01)) / (0.01 : ℝ) = (length - p) / (0.01 : ℝ) - 1 := by
      ring
    have h1 : (1 : ℤ) ≤ ⌈(length - p) / (0.01 : ℝ)⌉ := Int.ceil_pos.mpr hx
    have h2 : ⌈(length - p) / (0.01 : ℝ) - 1⌉ = ⌈(length - p) / (0.01 : ℝ)⌉ - 1 := by
      exact_mod_cast Int.ceil_sub_int ((length - p) / (0.01 : ℝ)) 1
    rw [he]
    omega

/-- Loop of the `Curved` arm of `Track::make_spline`.  `angleRad` is the
sweep angle already converted to radians; the proof argument `hp` records
the loop invariant `0 ≤ p` (true at entry, preserved by the step), which
makes the loop measure well founded. -/
def curvedGo (config : TrackConfig) (start : TrackPoint) (fixedSpeed : Option ℝ)
    (radius direction angleRad : ℝ) (prev : Option TrackPoint) (p : ℝ) (pos : Vec3)
    (velocity : ℝ) (rot : Quat) (hp : 0 ≤ p) : List TrackPoint :=
  if h : p < angleRad * radius then
    let radPerM := 1 / radius
    let dp := angleRad * radius / 200
    let axis := (Quat.fromAxisAngle vec3Z (toRadians direction)).mulVec3 vec3NegX
    let pos' := pos.add (rot.mulVec3 (Vec3.smul dp vec3Z))
    match fixedSpeed with
    | some fs =>
        let rot' := rot.mul (Quat.fromAxisAngle axis (radPerM * dp))
        let pt : TrackPoint := ⟨pos', rot', fs, p / fs + start.time⟩
        pt :: curvedGo config start fixedSpeed radius direction angleRad (some pt)
          (p + dp) pos' fs rot'
          (by
            have hb : 0 < angleRad * radius := lt_of_le_of_lt hp h
            have : 0 < dp := by
              have : 0 < angleRad * radius / 200 := by positivity
              simpa [dp] using this
            linarith)
    | none =>
        let dt := dp / velocity
        let point : TrackPoint := ⟨pos', start.rot, velocity, p / velocity + start.time⟩
        let velocity' := trackFriction config.parameter config.resistance
          config.heartlineHeight (prev.getD point) point dt
        if velocity' ≤ 0 then []
        else
          let rot' := rot.mul (Quat.fromAxisAngle axis (radPerM * dp))
          let pt : TrackPoint := ⟨pos', rot', velocity', p / velocity' + start.time⟩
          pt :: curvedGo config start fixedSpeed radius direction angleRad (some pt)
            (p + dp) pos' velocity' rot'
            (by
              have hb : 0 < angleRad * radius := lt_of_le_of_lt hp h
              have : 0 < dp := by
                have : 0 < angleRad * radius / 200 := by positivity
                simpa [dp] using this
              linarith)
  else []
termination_by (⌈(angleRad * radius - p) / (angleRad * radius / 200)⌉).toNat
decreasing_by
  all_goals
    have hb : 0 < angleRad * radius := lt_of_le_of_lt hp h
    have hdp : 0 < angleRad * radius / 200 := by positivity
    have hne : angleRad * radius ≠ 0 := ne_of_gt hb
    have hx : 0 < (angleRad * radius - p) / (angleRad * radius / 200) :=
      div_pos (by linarith) hdp
    have he : (angleRad * radius - (p + angleRad * radius / 200)) /
        (angleRad * radius / 200) =
        (angleRad * radius - p) / (angleRad * radius / 200) - 1 := by
      field_simp
      ring
    have h1 : (1 : ℤ) ≤ ⌈(angleRad * radius - p) / (angleRad * radius / 200)⌉ :=
      Int.ceil_pos.mpr hx
    have h2 : ⌈(angleRad * radius - p) / (angleRad * radius / 200) - 1⌉ =
        ⌈(angleRad * radius - p) / (angleRad * radius / 200)⌉ - 1 := by
      exact_mod_cast Int.ceil_sub_int ((angleRad * radius - p) / (angleRad * radius / 200)) 1
    rw [he]
    omega

/-- Loop of the `Force` arm of `Track::make_spline`, stepping `time` by the
fixed global timestep. -/
def forceGo (config : TrackConfig) (start : TrackPoint) (fixedSpeed : Option ℝ)
    (transitions : Transitions) (startForces : Forces) (prev : Option TrackPoint)
    (time : ℝ) (pos : Vec3) (rot : Quat) (velocity : ℝ) : List TrackPoint :=
  if h : time < transitions.length then
    let deltaDistance := velocity * dtConst
    if time ≥ transitions.length then []
    else
      match transitions.evaluate time with
      | none => []
      | some f0 =>
          let forces := f0.add startForces
          let nextRot1 :=
            if |forces.roll| > 0.01 then
              (Quat.fromAxisAngle (rot.mulVec3 vec3Z)
                  (toRadians forces.roll * dtConst)).mul rot
            else rot
          let forceVec := (Vec3.smul (-forces.vert) (nextRot1.mulVec3 vec3Y)).add
            ((Vec3.smul (-forces.lat) (nextRot1.mulVec3 vec3NegX)).add vec3Y)
          let normalForce := -(forceVec.dot (nextRot1.mulVec3 vec3Y)) * gConst
          let lateralForce := -(forceVec.dot (nextRot1.mulVec3 vec3NegX)) * gConst
          let nextRot2 :=
            ((Quat.fromAxisAngle (nextRot1.mulVec3 vec3NegX)
                (normalForce / velocity * dtConst)).mul
              (Quat.fromAxisAngle (nextRot1.mulVec3 vec3Y)
                (-(lateralForce / velocity) * dtConst))).mul nextRot1
          let pos' := pos.add (Vec3.smul deltaDistance (nextRot2.mulVec3 vec3Z))
          let trackPoint : TrackPoint := ⟨pos', nextRot2, velocity, time + start.time⟩
          let velocity' :=
            match fixedSpeed with
            | none => trackFriction config.parameter config.resistance
                config.heartlineHeight (prev.getD trackPoint) trackPoint dtConst
            | some _ => velocity
          if velocity' ≤ 0 then []
          else
            let pt : TrackPoint := ⟨pos', nextRot2, velocity', time + start.time⟩
            pt :: forceGo config start fixedSpeed transitions startForces (some pt)
              (time + dtConst) pos' nextRot2 velocity'
  else []
termination_by (⌈(transitions.length - time) / dtConst⌉).toNat
decreasing_by
  all_goals
    have hdt : 0 < dtConst := by norm_num [dtConst]
    have hx : 0 < (transitions.length - time) / dtConst := div_pos (by linarith) hdt
    have he : (transitions.length - (time + dtConst)) / dtConst =
        (transitions.length - time) / dtConst - 1 := by
      field_simp
      ring
    have h1 : (1 : ℤ) ≤ ⌈(transitions.length - time) / dtConst⌉ := Int.ceil_pos.mpr hx
    have h2 : ⌈(transitions.length - time) / dtConst - 1⌉ =
        ⌈(transitions.length - time) / dtConst⌉ - 1 := by
      exact_mod_cast Int.ceil_sub_int ((transitions.length - time) / dtConst) 1
    rw [he]
    omega

/-- `Track::make_spline`: dispatch on the section kind. -/
def makeSpline (config : TrackConfig) (sec : TrackSection) (start : TrackPoint)
    (startForces : Forces) : TrackSpline :=
  match sec with
  | .straight length fixedSpeed =>
      ⟨straightGo config start length fixedSpeed none 0 start.pos start.velocity⟩
  | .curved fixedSpeed radius direction angle =>
      ⟨curvedGo config start fixedSpeed radius direction (toRadians angle) none 0
        start.pos start.velocity start.rot le_rfl⟩
  | .force fixedSpeed transitions =>
      ⟨forceGo config start fixedSpeed transitions startForces none 0 start.pos
        start.rot (fixedSpeed.getD start.velocity)⟩

/-- Loop of `Track::make_splines` over the sections.  The `forces(...)
.unwrap()` after each section and the `points.last().unwrap()` before the
next one are modelled by `none` (a `none` result is the Rust panic). -/
def makeSplinesGo (config : TrackConfig) :
    List TrackSection → TrackPoint → Forces → Option (List TrackSpline)
  | [], _, _ => some []
  | sec :: rest, pt, fs =>
      let s := makeSpline config sec pt fs
      match s.forces (s.totalDistance - 0.005) with
      | none => none
      | some fs' =>
          match rest with
          | [] => some [s]
          | sec2 :: rest2 =>
              match s.points.getLast? with
              | none => none
              | some lastPt =>
                  (makeSplinesGo config (sec2 :: rest2) lastPt fs').map fun ss => s :: ss

/-- `Track::make_splines`: anchor with orientation reset to identity and
time reset to 0, baseline forces `{vert 1, lat 0, roll 0}`. -/
def Track.makeSplines (t : Track) : Option (List TrackSpline) :=
  let initialPoint : TrackPoint := { t.anchor with rot := Quat.identity, time := 0 }
  makeSplinesGo t.config t.sections initialPoint ⟨1, 0, 0⟩

/-- Offset-accumulation loop of `Track::get_spline` (push the running
total, then add the section's polyline length). -/
def sectionStartGo : List TrackSpline → ℝ → List ℝ
  | [], _ => []
  | s :: rest, acc => acc :: sectionStartGo rest (acc + s.totalDistance)

/-- Rust `Iterator::step_by(4)`: keep the first element, then every 4th. -/
def stepBy4 : List TrackPoint → List TrackPoint
  | [] => []
  | x :: xs => x :: stepBy4 (xs.drop 3)
termination_by l => l.length
decreasing_by
  simp only [List.length_drop, List.length_cons]
  omega

/-- `Track::get_spline`. -/
def Track.getSpline (t : Track) : Option (TrackSpline × List ℝ) :=
  match t.makeSplines with
  | none => none
  | some ss => some (⟨stepBy4 ((ss.map TrackSpline.points).flatten)⟩, sectionStartGo ss 0)

/-- Spec-side decimation helper: keep exactly the elements whose index in
the list is `≡ 0 (mod 4)`; `n` is the index of the head. -/
def specFromIdx : ℕ → List TrackPoint → List TrackPoint
  | _, [] => []
  | n, x :: xs => if n % 4 = 0 then x :: specFromIdx (n + 1) xs else specFromIdx (n + 1) xs

/-- Spec-side reading of §4.7: "every 4th point (starting with the first)
of the concatenation". -/
def specEvery4th (l : List TrackPoint) : List TrackPoint := specFromIdx 0 l

/-- Spec-side reading of §4.7's offsets: the i-th offset is the sum of the
polyline lengths of all sections before section i. -/
def specOffsets (ss : List TrackSpline) : List ℝ :=
  (List.range ss.length).map fun i => ((ss.take i).map TrackSpline.totalDistance).sum

/-- All `fixed_speed` values declared by a section are nonnegative. -/
def sectionFixedOk : TrackSection → Prop
  | .straight _ fs => ∀ v ∈ fs, 0 ≤ v
  | .force fs _ => ∀ v ∈ fs, 0 ≤ v
  | .curved fs _ _ _ => ∀ v ∈ fs, 0 ≤ v

/-- A linear easing segment with value 1, length 1 and no time-warp. -/
def trLin : Transition := ⟨.linear, 1, 1, 0, 0⟩

/-- Concrete schedule with two linear unit segments per channel, used to
exercise the two evaluators at an interior time. -/
def tsBug : Transitions := ⟨[trLin, trLin], [trLin, trLin], [trLin, trLin]⟩

/-- Concrete empty schedule. -/
def trEmpty : Transitions := ⟨[], [], []⟩

/-- Concrete config with no friction parameters. -/
def cfg0 : TrackConfig := ⟨0, 0, 0⟩

/-- Concrete anchor at the origin with identity orientation. -/
def anchor0 : TrackPoint := ⟨⟨0, 0, 0⟩, Quat.identity, 0, 0⟩

/-- Concrete track: a single Straight section of length 10 with fixed
speed 5 (the §8 scenario). -/
def ctrack5 : Track := ⟨[.straight 10 (some 5)], cfg0, anchor0⟩

/-- Concrete track: a single Straight section of length 10 with fixed
speed -5. -/
def ctrackNeg : Track := ⟨[.straight 10 (some (-5))], cfg0, anchor0⟩

/-- Concrete track: a single Straight section of length 0, whose spline is
empty. -/
def ctrack0 : Track := ⟨[.straight 0 (some 5)], cfg0, anchor0⟩

/-- Concrete track with no sections at all. -/
def trackEmpty : Track := ⟨[], cfg0, anchor0⟩

/-- The point emitted at step `j` by the fixed-speed Straight loop started
at the origin with identity orientation and fixed speed `fs`. -/
def mkStraightPt (fs : ℝ) (j : ℕ) : TrackPoint :=
  ⟨⟨0, 0, ((j : ℝ) + 1) / 100⟩, Quat.identity, fs, (j : ℝ) / 100 / fs⟩

/-- The full 1000-point spline of `ctrack5`'s single section. -/
def fiveSpline : TrackSpline := ⟨(List.range 1000).map (mkStraightPt 5)⟩

/-- The full 1000-point spline of `ctrackNeg`'s single section. -/
def negSpline : TrackSpline := ⟨(List.range 1000).map (mkStraightPt (-5))⟩

/-- Concrete two-point spline. -/
def twoPtSpline : TrackSpline :=
  ⟨[⟨⟨0, 0, 0⟩, Quat.identity, 1, 0⟩, ⟨⟨0, 0, 1⟩, Quat.identity, 1, 1⟩]⟩

/-- Concrete point at the origin with unit speed. -/
def ptA : TrackPoint := ⟨⟨0, 0, 0⟩, Quat.identity, 1, 0⟩

/-- Concrete point one unit down the z axis with unit speed. -/
def ptB : TrackPoint := ⟨⟨0, 0, 1⟩, Quat.identity, 1, 0⟩

theorem eval_linear_zero : TransitionCurve.eval .linear 0 = 0 := by
  simp [TransitionCurve.eval]

theorem eval_linear_one : TransitionCurve.eval .linear 1 = 1 := by
  simp [TransitionCurve.eval]

theorem eval_quadratic_zero : TransitionCurve.eval .quadratic 0 = 0 := by
  norm_num [TransitionCurve.eval]

theorem eval_quadratic_one : TransitionCurve.eval .quadratic 1 = 1 := by
  norm_num [TransitionCurve.eval, Real.zero_rpow]

theorem eval_cubic_zero : TransitionCurve.eval .cubic 0 = 0 := by
  norm_num [TransitionCurve.eval]

theorem eval_cubic_one : TransitionCurve.eval .cubic 1 = 1 := by
  norm_num [TransitionCurve.eval, Real.zero_rpow]

theorem eval_plateau_zero : TransitionCurve.eval .plateau 0 = 0 := by
  norm_num [TransitionCurve.eval]

theorem eval_plateau_one : TransitionCurve.eval .plateau 1 = 0 := by
  norm_num [TransitionCurve.eval]

theorem eval_quarticBump_zero : TransitionCurve.eval .quarticBump 0 = 0 := by
  norm_num [TransitionCurve.eval]

theorem eval_quarticBump_one : TransitionCurve.eval .quarticBump 1 = 0 := by
  norm_num [TransitionCurve.eval]

/-- C4 (counterexample): the Plateau curve evaluates to 0 at `t = 1`, not
to 1 as the claim asserts for all non-QuarticBump kinds. -/
theorem c4_counter :
    TransitionCurve.eval .plateau 1 = 0 ∧ TransitionCurve.eval .plateau 1 ≠ 1 := by
  refine ⟨eval_plateau_one, ?_⟩
  rw [eval_plateau_one]
  norm_num

/-- C4 (amended): Linear, Quadratic and Cubic map 0 to 0 and 1 to 1;
Plateau maps both endpoints to 0 (its bump formula vanishes there); and
QuarticBump at `t = 1` equals the literal polynomial value
`1·1·(16 + 1·(-32 + 1·16)) = 0`. -/
theorem c4_amended :
    TransitionCurve.eval .linear 0 = 0 ∧ TransitionCurve.eval .linear 1 = 1 ∧
    TransitionCurve.eval .quadratic 0 = 0 ∧ TransitionCurve.eval .quadratic 1 = 1 ∧
    TransitionCurve.eval .cubic 0 = 0 ∧ TransitionCurve.eval .cubic 1 = 1 ∧
    TransitionCurve.eval .plateau 0 = 0 ∧ TransitionCurve.eval .plateau 1 = 0 ∧
    TransitionCurve.eval .quarticBump 0 = 0 ∧
    TransitionCurve.eval .quarticBump 1 = 1 * 1 * (16 + 1 * (-32 + 1 * 16)) :=
  ⟨eval_linear_zero, eval_linear_one, eval_quadratic_zero, eval_quadratic_one,
    eval_cubic_zero, eval_cubic_one, eval_plateau_zero, eval_plateau_one,
    eval_quarticBump_zero, by rw [eval_quarticBump_one]; norm_num⟩

theorem degDiffUp_ge (d : ℝ) : -180 ≤ degDiffUp d := by
  rw [degDiffUp]
  split
  · exact degDiffUp_ge (d + 360)
  · linarith [not_lt.mp (by assumption : ¬d < -180)]
termination_by (⌈(-180 - d) / 360⌉).toNat
decreasing_by
  rename_i h
  have hx : 0 < (-180 - d) / 360 := div_pos (by linarith) (by norm_num)
  have he : (-180 - (d + 360)) / 360 = (-180 - d) / 360 - 1 := by ring
  have h1 : (1 : ℤ) ≤ ⌈(-180 - d) / 360⌉ := Int.ceil_pos.mpr hx
  have h2 : ⌈(-180 - d) / 360 - 1⌉ = ⌈(-180 - d) / 360⌉ - 1 := by
    exact_mod_cast Int.ceil_sub_int ((-180 - d) / 360) 1
  rw [he]
  omega

theorem degDiffUp_le (d : ℝ) (hd : d ≤ 180) : degDiffUp d ≤ 180 := by
  rw [degDiffUp]
  split
  · exact degDiffUp_le (d + 360) (by linarith)
  · exact hd
termination_by (⌈(-180 - d) / 360⌉).toNat
decreasing_by
  rename_i h
  have hx : 0 < (-180 - d) / 360 := div_pos (by linarith) (by norm_num)
  have he : (-180 - (d + 360)) / 360 = (-180 - d) / 360 - 1 := by ring
  have h1 : (1 : ℤ) ≤ ⌈(-180 - d) / 360⌉ := Int.ceil_pos.mpr hx
  have h2 : ⌈(-180 - d) / 360 - 1⌉ = ⌈(-180 - d) / 360⌉ - 1 := by
    exact_mod_cast Int.ceil_sub_int ((-180 - d) / 360) 1
  rw [he]
  omega

theorem degDiffDown_le (d : ℝ) : degDiffDown d ≤ 180 := by
  rw [degDiffDown]
  split
  · exact degDiffDown_le (d - 360)
  · linarith [not_lt.mp (by assumption : ¬d > 180)]
termination_by (⌈(d - 180) / 360⌉).toNat
decreasing_by
  rename_i h
  have hx : 0 < (d - 180) / 360 := div_pos (by linarith) (by norm_num)
  have he : (d - 360 - 180) / 360 = (d - 180) / 360 - 1 := by ring
  have h1 : (1 : ℤ) ≤ ⌈(d - 180) / 360⌉ := Int.ceil_pos.mpr hx
  have h2 : ⌈(d - 180) / 360 - 1⌉ = ⌈(d - 180) / 360⌉ - 1 := by
    exact_mod_cast Int.ceil_sub_int ((d - 180) / 360) 1
  rw [he]
  omega

theorem degDiffDown_ge (d : ℝ) (hd : -180 ≤ d) : -180 ≤ degDiffDown d := by
  rw [degDiffDown]
  split
  · exact degDiffDown_ge (d - 360) (by linarith [(by assumption : d > 180)])
  · exact hd
termination_by (⌈(d - 180) / 360⌉).toNat
decreasing_by
  rename_i h
  have hx : 0 < (d - 180) / 360 := div_pos (by linarith) (by norm_num)
  have he : (d - 360 - 180) / 360 = (d - 180) / 360 - 1 := by ring
  have h1 : (1 : ℤ) ≤ ⌈(d - 180) / 360⌉ := Int.ceil_pos.mpr hx
  have h2 : ⌈(d - 180) / 360 - 1⌉ = ⌈(d - 180) / 360⌉ - 1 := by
    exact_mod_cast Int.ceil_sub_int ((d - 180) / 360) 1
  rw [he]
  omega

theorem degDiff_self (a : ℝ) : degDiff a a = 0 := by
  have h0 : degDiffUp 0 = 0 := by
    rw [degDiffUp]
    norm_num
  have h1 : degDiffDown 0 = 0 := by
    rw [degDiffDown]
    norm_num
  simp [degDiff, h0, h1]

/-- C8 (counterexample): `deg_diff(0, -180) = -180`, which is not in the
claimed half-open interval `(-180, 180]`. -/
theorem c8_counter :
    degDiff 0 (-180) = -180 ∧ degDiff 0 (-180) ∉ Set.Ioc (-180 : ℝ) 180 := by
  have hup : degDiffUp ((-180 : ℝ) - 0) = -180 := by
    rw [degDiffUp]
    norm_num
  have hdown : degDiffDown (-180 : ℝ) = -180 := by
    rw [degDiffDown]
    norm_num
  have h : degDiff 0 (-180) = -180 := by
    simp only [degDiff, hup, hdown]
  refine ⟨h, ?_⟩
  rw [h]
  simp

/-- C8 (amended): `deg_diff(a, b)` always lies in the closed interval
`[-180, 180]` (the endpoint `-180` is attainable, so the interval is not
half open), and `deg_diff(a, a) = 0`. -/
theorem c8_amended (a b : ℝ) :
    degDiff a b ∈ Set.Icc (-180 : ℝ) 180 ∧ degDiff a a = 0 := by
  refine ⟨⟨?_, ?_⟩, degDiff_self a⟩
  · exact degDiffDown_ge _ (degDiffUp_ge (b - a))
  · exact degDiffDown_le _

theorem degDiffUpFuel_complete (d : ℝ) :
    ∃ n, degDiffUpFuel n d = some (degDiffUp d) := by
  by_cases h : d < -180
  · obtain ⟨n, hn⟩ := degDiffUpFuel_complete (d + 360)
    refine ⟨n + 1, ?_⟩
    rw [degDiffUp, dif_pos h]
    simp only [degDiffUpFuel, if_pos h, hn]
  · exact ⟨1, by simp only [degDiffUpFuel, if_neg h]; rw [degDiffUp]; simp [h]⟩
termination_by (⌈(-180 - d) / 360⌉).toNat
decreasing_by
  have hx : 0 < (-180 - d) / 360 := div_pos (by linarith) (by norm_num)
  have he : (-180 - (d + 360)) / 360 = (-180 - d) / 360 - 1 := by ring
  have h1 : (1 : ℤ) ≤ ⌈(-180 - d) / 360⌉ := Int.ceil_pos.mpr hx
  have h2 : ⌈(-180 - d) / 360 - 1⌉ = ⌈(-180 - d) / 360⌉ - 1 := by
    exact_mod_cast Int.ceil_sub_int ((-180 - d) / 360) 1
  rw [he]
  omega

theorem degDiffDownFuel_complete (d : ℝ) :
    ∃ n, degDiffDownFuel n d = some (degDiffDown d) := by
  by_cases h : d > 180
  · obtain ⟨n, hn⟩ := degDiffDownFuel_complete (d - 360)
    refine ⟨n + 1, ?_⟩
    rw [degDiffDown, dif_pos h]
    simp only [degDiffDownFuel, if_pos h, hn]
  · exact ⟨1, by simp only [degDiffDownFuel, if_neg h]; rw [degDiffDown]; simp [h]⟩
termination_by (⌈(d - 180) / 360⌉).toNat
decreasing_by
  have hx : 0 < (d - 180) / 360 := div_pos (by linarith) (by norm_num)
  have he : (d - 360 - 180) / 360 = (d - 180) / 360 - 1 := by ring
  have h1 : (1 : ℤ) ≤ ⌈(d - 180) / 360⌉ := Int.ceil_pos.mpr hx
  have h2 : ⌈(d - 180) / 360 - 1⌉ = ⌈(d - 180) / 360⌉ - 1 := by
    exact_mod_cast Int.ceil_sub_int ((d - 180) / 360) 1
  rw [he]
  omega

/-- C10: both wraparound loops of `deg_diff` terminate after finitely many
iterations on every real input — the fuel-counted loops reach the same
value as the total function `degDiff` with some finite fuel. -/
theorem c10_termination (a b : ℝ) :
    ∃ n m : ℕ, degDiffUpFuel n (b - a) = some (degDiffUp (b - a)) ∧
      degDiffDownFuel m (degDiffUp (b - a)) = some (degDiff a b) := by
  obtain ⟨n, hn⟩ := degDiffUpFuel_complete (b - a)
  obtain ⟨m, hm⟩ := degDiffDownFuel_complete (degDiffUp (b - a))
  exact ⟨n, m, hn, hm⟩

theorem trackFriction_nonneg (parameter resistance hh : ℝ) (lp p : TrackPoint)
    (dt : ℝ) : 0 ≤ trackFriction parameter resistance hh lp p dt := by
  unfold trackFriction
  split
  · exact le_rfl
  · exact Real.sqrt_nonneg _

/-- C2: the friction update is never negative; if the remaining energy
(kinetic energy after the drag loss, minus the potential/rolling-resistance
term) is ≤ 0 it returns exactly 0, and otherwise it returns the square root
of twice the remaining energy, which is positive. -/
theorem c2_friction (parameter resistance hh : ℝ) (lp p : TrackPoint) (dt : ℝ) :
    0 ≤ trackFriction parameter resistance hh lp p dt ∧
    (remEnergy parameter resistance hh lp p dt ≤ 0 →
      trackFriction parameter resistance hh lp p dt = 0) ∧
    (0 < remEnergy parameter resistance hh lp p dt →
      trackFriction parameter resistance hh lp p dt =
        Real.sqrt (2 * remEnergy parameter resistance hh lp p dt) ∧
      0 < trackFriction parameter resistance hh lp p dt) := by
  refine ⟨trackFriction_nonneg _ _ _ _ _ _, fun h => ?_, fun h => ?_⟩
  · unfold trackFriction
    rw [if_pos h]
  · have he : trackFriction parameter resistance hh lp p dt =
        Real.sqrt (2 * remEnergy parameter resistance hh lp p dt) := by
      unfold trackFriction
      rw [if_neg (not_le.mpr h)]
    refine ⟨he, ?_⟩
    rw [he]
    exact Real.sqrt_pos.mpr (by linarith)

/-- C2 (witness): at a concrete downhill-free input with unit entry speed
the remaining energy is positive and the friction update is positive. -/
theorem c2_friction_witness :
    0 < remEnergy 0 0 0 ptA ptB 1 ∧ 0 < trackFriction 0 0 0 ptA ptB 1 := by
  have hrem : remEnergy 0 0 0 ptA ptB 1 = 0.5 := by
    norm_num [remEnergy, ptA, ptB, Quat.identity, Quat.mulVec3, Vec3.add, Vec3.sub,
      Vec3.smul, Vec3.dot, Vec3.cross, vec3NegY]
  refine ⟨by rw [hrem]; norm_num, ?_⟩
  exact ((c2_friction 0 0 0 ptA ptB 1).2.2 (by rw [hrem]; norm_num)).2

theorem sumLengths_nonneg (l : List Transition)
    (h : ∀ tr ∈ l, 0 ≤ tr.length) : 0 ≤ sumLengths l := by
  refine List.sum_nonneg ?_
  intro x hx
  obtain ⟨tr, htr, rfl⟩ := List.mem_map.mp hx
  exact h tr htr

theorem evalSingleGo_past_end (l : List Transition) :
    ∀ timeAccum value time : ℝ, (∀ tr ∈ l, 0 ≤ tr.length) →
      timeAccum + sumLengths l < time →
      evalSingleGo l time timeAccum value = value + termSum l := by
  induction l with
  | nil =>
      intro timeAccum value time _ _
      simp [evalSingleGo, termSum]
  | cons tr rest ih =>
      intro timeAccum value time hlen hpast
      have hrest : 0 ≤ sumLengths rest :=
        sumLengths_nonneg rest fun x hx => hlen x (List.mem_cons_of_mem _ hx)
      have hsum : sumLengths (tr :: rest) = tr.length + sumLengths rest := by
        simp [sumLengths]
      have hnc : ¬(timeAccum ≤ time ∧ time ≤ timeAccum + tr.length) := by
        rintro ⟨-, h2⟩
        rw [hsum] at hpast
        linarith
      rw [evalSingleGo, if_neg hnc,
        ih (timeAccum + tr.length) (value + tr.value * tr.curve.eval 1) time
          (fun x hx => hlen x (List.mem_cons_of_mem _ hx))
          (by rw [hsum] at hpast; linarith)]
      have : termSum (tr :: rest) = tr.value * tr.curve.eval 1 + termSum rest := by
        simp [termSum]
      rw [this]
      ring

/-- C7: the linear-scan evaluator returns `none` iff `time < 0`, and on a
channel whose segment durations are nonnegative, a `time` beyond the
channel's total duration yields the accumulated sum of all terminal values
`value · eval(1)` rather than a failure. -/
theorem c7_evaluate (ts : Transitions) (l : List Transition) (time : ℝ) :
    (ts.evaluate time = none ↔ time < 0) ∧
    ((∀ tr ∈ l, 0 ≤ tr.length) → sumLengths l < time →
      evaluateSingle l time = some (termSum l)) := by
  constructor
  · by_cases h : time < 0
    · simp [Transitions.evaluate, h]
    · simp [Transitions.evaluate, evaluateSingle, h]
  · intro hlen hpast
    have ht : ¬time < 0 := by
      have := sumLengths_nonneg l hlen
      linarith
    rw [evaluateSingle, if_neg ht,
      evalSingleGo_past_end l 0 0 time hlen (by linarith)]
    rw [zero_add]

/-- C7 (witness): at the empty schedule and time 1 the evaluator does not
fail, and an empty channel past its (zero) duration returns its (empty)
terminal sum. -/
theorem c7_evaluate_witness :
    (trEmpty.evaluate 1 = none ↔ (1 : ℝ) < 0) ∧
    evaluateSingle [] 1 = some (termSum []) :=
  ⟨(c7_evaluate trEmpty [] 1).1,
    (c7_evaluate trEmpty [] 1).2 (by simp) (by norm_num [sumLengths])⟩

theorem evalTimewarp_linear_half :
    TransitionCurve.evalTimewarp .linear (1 / 2) 0 0 = 1 / 2 := by
  norm_num [TransitionCurve.evalTimewarp, timewarp, timewarpCenter, timewarpTension,
    TransitionCurve.eval]

theorem evalTimewarp_linear_neg_half :
    TransitionCurve.evalTimewarp .linear (-(1 / 2)) 0 0 = 0 := by
  norm_num [TransitionCurve.evalTimewarp, timewarp, timewarpCenter, timewarpTension,
    TransitionCurve.eval]

theorem tsBug_length : Transitions.length tsBug = 2 := by
  norm_num [Transitions.length, tsBug, sumLengths, trLin]

theorem tsBug_abs : toAbsoluteGo [trLin, trLin] 0 0 =
    [⟨.linear, 1, 0, 0, 1, 0, 0⟩, ⟨.linear, 1, 1, 1, 1, 0, 0⟩] := by
  norm_num [toAbsoluteGo, trLin, eval_linear_one]

theorem tsBug_findRange :
    findRangeIndex [⟨.linear, 1, 0, 0, 1, 0, 0⟩, ⟨.linear, 1, 1, 1, 1, 0, 0⟩] (1 / 2) = 1 := by
  rw [findRangeIndex]
  rw [findRangeGo]
  norm_num [dfltAbs]
  rw [findRangeGo]
  norm_num [dfltAbs]
  rw [findRangeGo]
  norm_num

theorem tsBug_fast_single :
    (FastTransitions.new tsBug).evaluateSingle
      (toAbsoluteGo [trLin, trLin] 0 0) (1 / 2) = some 1 := by
  rw [FastTransitions.evaluateSingle]
  rw [if_neg (by rw [FastTransitions.new, tsBug_length]; norm_num)]
  rw [tsBug_abs, tsBug_findRange]
  norm_num [List.getD]
  exact evalTimewarp_linear_neg_half

theorem tsBug_linear_single : evaluateSingle [trLin, trLin] (1 / 2) = some (1 / 2) := by
  rw [evaluateSingle, if_neg (by norm_num)]
  rw [evalSingleGo, if_pos (by constructor <;> norm_num [trLin])]
  norm_num [trLin, evalTimewarp_linear_half]

/-- C1: the fast (binary-search) evaluator and the linear-scan evaluator
disagree on the two-segment-per-channel schedule `tsBug` at the interior
time 1/2: the fast one returns `(1,1,1)` while the linear one returns
`(1/2, 1/2, 1/2)` — the binary search picks the successor segment instead
of the containing one. -/
theorem c1_divergence :
    (FastTransitions.new tsBug).evaluate (1 / 2) = some ⟨1, 1, 1⟩ ∧
    tsBug.evaluate (1 / 2) = some ⟨1 / 2, 1 / 2, 1 / 2⟩ := by
  constructor
  · rw [FastTransitions.evaluate]
    rw [if_neg (by rw [FastTransitions.new, tsBug_length]; norm_num)]
    have hv : (FastTransitions.new tsBug).vert = toAbsoluteGo [trLin, trLin] 0 0 := by
      rw [FastTransitions.new, tsBug]
    have hl : (FastTransitions.new tsBug).lat = toAbsoluteGo [trLin, trLin] 0 0 := by
      rw [FastTransitions.new, tsBug]
    have hr : (FastTransitions.new tsBug).roll = toAbsoluteGo [trLin, trLin] 0 0 := by
      rw [FastTransitions.new, tsBug]
    rw [hv, hl, hr, tsBug_fast_single]
    rfl
  · rw [Transitions.evaluate, if_neg (by norm_num)]
    have hv : tsBug.vert = [trLin, trLin] := rfl
    have hl : tsBug.lat = [trLin, trLin] := rfl
    have hr : tsBug.roll = [trLin, trLin] := rfl
    rw [hv, hl, hr, tsBug_linear_single]
    rfl

theorem evalClosestGo_isSome (rest : List TrackPoint) :
    ∀ (prev : TrackPoint) (acc dist : ℝ), rest ≠ [] →
      dist ≤ acc + distGo (prev :: rest) → (evalClosestGo prev rest acc dist).isSome := by
  induction rest with
  | nil => intro prev acc dist h _; exact absurd rfl h
  | cons q rest' ih =>
      intro prev acc dist _ hle
      rw [evalClosestGo]
      by_cases hge : acc + (q.pos.sub prev.pos).length ≥ dist
      · simp [hge]
      · rw [if_neg hge]
        cases rest' with
        | nil =>
            exfalso
            have hdist : distGo (prev :: q :: []) = (q.pos.sub prev.pos).length := by
              simp [distGo]
            rw [hdist] at hle
            exact hge hle
        | cons r rest2 =>
            refine ih q (acc + (q.pos.sub prev.pos).length) dist (by simp) ?_
            have hdist : distGo (prev :: q :: r :: rest2) =
                (q.pos.sub prev.pos).length + distGo (q :: r :: rest2) := by
              simp [distGo]
            rw [hdist] at hle
            linarith

theorem forces_isSome_of_two_le (s : TrackSpline) (h : 2 ≤ s.points.length) :
    (s.forces (s.totalDistance - 0.005)).isSome := by
  rcases hs : s.points with _ | ⟨p, rest⟩
  · rw [hs] at h
    simp at h
  rcases rest with _ | ⟨q, rest'⟩
  · rw [hs] at h
    simp at h
  have hclosest : s.evalClosest (s.totalDistance - 0.005) =
      evalClosestGo p (q :: rest') 0 (s.totalDistance - 0.005) := by
    rw [TrackSpline.evalClosest, hs]
  have htot : s.totalDistance = distGo (p :: q :: rest') := by
    rw [TrackSpline.totalDistance, hs]
  have hsome : (s.evalClosest (s.totalDistance - 0.005)).isSome := by
    rw [hclosest]
    refine evalClosestGo_isSome (q :: rest') p 0 _ (by simp) ?_
    rw [htot]
    norm_num
  obtain ⟨pair, hpair⟩ := Option.isSome_iff_exists.mp hsome
  rw [TrackSpline.forces, hpair]
  simp

/-- C3 (counterexample): on the concrete track whose only section is a
Straight segment of length 0, the section's spline is empty, the
baseline-forces recomputation finds no bracketing pair, and `make_splines`
aborts fatally on the `unwrap` (modelled by `none`) instead of treating the
missing result as stop/skip. -/
theorem c3_counter : Track.makeSplines ctrack0 = none := by
  rw [Track.makeSplines]
  have hloop : straightGo cfg0 ⟨⟨0, 0, 0⟩, Quat.identity, 0, 0⟩ 0 (some 5) none 0
      (⟨0, 0, 0⟩ : Vec3) 0 = [] := by
    rw [straightGo]
    norm_num
  simp only [ctrack0, anchor0, makeSplinesGo, makeSpline]
  rw [hloop]
  rfl

/-- C3 (amended): the baseline-forces recomputation,
`forces(total_distance() - 0.005)`, always yields a result on a spline with
at least two points (the lookup 0.005 before the end is always within
domain); when a section produces fewer than two points the recomputation
yields no result and `make_splines` aborts fatally on its `unwrap` rather
than treating the missing result as stop/skip. -/
theorem c3_forces_in_domain (s : TrackSpline) (h : 2 ≤ s.points.length) :
    (s.forces (s.totalDistance - 0.005)).isSome :=
  forces_isSome_of_two_le s h

/-- C3 (witness): the recomputation succeeds on a concrete 2-point spline. -/
theorem c3_forces_in_domain_witness :
    (twoPtSpline.forces (twoPtSpline.totalDistance - 0.005)).isSome :=
  c3_forces_in_domain twoPtSpline (by norm_num [twoPtSpline])

theorem specFromIdx_congr (xs : List TrackPoint) :
    ∀ n m : ℕ, n % 4 = m % 4 → specFromIdx n xs = specFromIdx m xs := by
  induction xs with
  | nil => intro n m _; rfl
  | cons x xs ih =>
      intro n m h
      simp only [specFromIdx, h]
      by_cases h0 : m % 4 = 0
      · rw [if_pos h0, if_pos h0, ih (n + 1) (m + 1) (by omega)]
      · rw [if_neg h0, if_neg h0]
        exact ih (n + 1) (m + 1) (by omega)

theorem specFromIdx_cons4 (x : TrackPoint) (xs : List TrackPoint) :
    specFromIdx 0 (x :: xs) = x :: specFromIdx 0 (xs.drop 3) := by
  match xs with
  | [] => simp [specFromIdx]
  | [a] => simp [specFromIdx]
  | [a, b] => simp [specFromIdx]
  | [a, b, c] => simp [specFromIdx]
  | a :: b :: c :: d :: rest =>
      simp only [specFromIdx, List.drop_succ_cons, List.drop_zero]
      norm_num
      exact specFromIdx_congr rest 5 1 (by norm_num)

theorem stepBy4_eq_spec (l : List TrackPoint) : stepBy4 l = specEvery4th l := by
  rw [specEvery4th]
  match l with
  | [] => rw [stepBy4]; rfl
  | x :: xs =>
      rw [stepBy4, specFromIdx_cons4]
      have hrec := stepBy4_eq_spec (xs.drop 3)
      rw [specEvery4th] at hrec
      rw [hrec]
termination_by l.length
decreasing_by
  simp only [List.length_drop, List.length_cons]
  omega

theorem sectionStartGo_eq (ss : List TrackSpline) :
    ∀ acc : ℝ, sectionStartGo ss acc =
      (List.range ss.length).map
        fun i => acc + ((ss.take i).map TrackSpline.totalDistance).sum := by
  induction ss with
  | nil => intro acc; simp [sectionStartGo]
  | cons s rest ih =>
      intro acc
      rw [sectionStartGo, ih (acc + s.totalDistance), List.length_cons,
        List.range_succ_eq_map]
      simp only [List.map_cons, List.map_map]
      congr 1
      · simp
      · refine List.map_congr_left fun i _ => ?_
        simp only [Function.comp_apply, List.take_succ_cons, List.map_cons, List.sum_cons]
        ring

/-- C9: whenever `make_splines` succeeds, `get_spline` returns the
decimated spline consisting of exactly every 4th point (starting with the
first) of the concatenation of the per-section undecimated splines, and
per-section offsets where the i-th offset is the sum of the undecimated
polyline lengths of all sections before section i. -/
theorem c9_getSpline (t : Track) (ss : List TrackSpline)
    (h : t.makeSplines = some ss) :
    t.getSpline =
      some (⟨specEvery4th ((ss.map TrackSpline.points).flatten)⟩, specOffsets ss) := by
  have hoff : sectionStartGo ss 0 = specOffsets ss := by
    rw [sectionStartGo_eq ss 0, specOffsets]
    refine List.map_congr_left fun i _ => ?_
    rw [zero_add]
  rw [Track.getSpline, h]
  show some ((⟨stepBy4 ((ss.map TrackSpline.points).flatten)⟩ : TrackSpline),
    sectionStartGo ss 0) = some
      ((⟨specEvery4th ((ss.map TrackSpline.points).flatten)⟩ : TrackSpline), specOffsets ss)
  rw [stepBy4_eq_spec, hoff]

/-- C9 (witness): on the concrete empty track (whose assembly trivially
succeeds) the decimated output and the offsets match the spec-side
description. -/
theorem c9_getSpline_witness :
    trackEmpty.getSpline =
      some (⟨specEvery4th ((([] : List TrackSpline).map TrackSpline.points).flatten)⟩,
        specOffsets []) :=
  c9_getSpline trackEmpty [] rfl

theorem straightFixedEval (fs v0 vel : ℝ) (prev : Option TrackPoint) (k : ℕ)
    (p : ℝ) (pos : Vec3) (hk : k ≤ 1000) (hp : p = (k : ℝ) / 100)
    (hpos : pos = ⟨0, 0, (k : ℝ) / 100⟩) :
    straightGo cfg0 ⟨⟨0, 0, 0⟩, Quat.identity, v0, 0⟩ 10 (some fs) prev p pos vel =
      (List.range (1000 - k)).map fun i => mkStraightPt fs (k + i) := by
  subst hp
  subst hpos
  by_cases h : (k : ℝ) / 100 < 10
  · have hklt : k < 1000 := by
      rw [div_lt_iff (by norm_num : (0 : ℝ) < 100)] at h
      exact_mod_cast h
    rw [straightGo, dif_pos h]
    have hrot : Quat.identity.mulVec3 (Vec3.smul 0.01 vec3Z) = ⟨0, 0, 0.01⟩ := by
      norm_num [Quat.identity, Quat.mulVec3, Vec3.smul, Vec3.dot, Vec3.cross, Vec3.add, vec3Z]
    simp only [hrot, Vec3.add]
    have hp2 : (k : ℝ) / 100 + 0.01 = ((k + 1 : ℕ) : ℝ) / 100 := by
      push_cast
      ring
    have hpos2 : (⟨0 + 0, 0 + 0, 0.01 + (k : ℝ) / 100⟩ : Vec3) =
        ⟨0, 0, ((k + 1 : ℕ) : ℝ) / 100⟩ := by
      push_cast
      norm_num
      ring
    rw [hp2, hpos2,
      straightFixedEval fs v0 fs _ (k + 1) _ _ (by omega) rfl rfl,
      show 1000 - k = (1000 - (k + 1)) + 1 from by omega,
      List.range_succ_eq_map, List.map_cons, List.map_map]
    congr 1
    · rw [mkStraightPt]
      norm_num
    · refine List.map_congr_left fun i _ => ?_
      simp only [Function.comp_apply]
      congr 1
      omega
  · have hk1000 : k = 1000 := by
      rw [not_lt, le_div_iff (by norm_num : (0 : ℝ) < 100)] at h
      have : (1000 : ℝ) ≤ (k : ℝ) := by linarith
      have := Nat.cast_le (α := ℝ).mp (by exact_mod_cast this)
      omega
    rw [straightGo, dif_neg h, hk1000]
    simp
termination_by 1000 - k
decreasing_by omega

theorem straight10_splines (fs : ℝ) :
    Track.makeSplines ⟨[.straight 10 (some fs)], cfg0, anchor0⟩ =
      some [⟨(List.range 1000).map (mkStraightPt fs)⟩] := by
  have hs : makeSpline cfg0 (.straight 10 (some fs)) ⟨⟨0, 0, 0⟩, Quat.identity, 0, 0⟩
      ⟨1, 0, 0⟩ = (⟨(List.range 1000).map (mkStraightPt fs)⟩ : TrackSpline) := by
    rw [makeSpline]
    congr 1
    rw [straightFixedEval fs 0 0 none 0 0 ⟨0, 0, 0⟩ (by norm_num) (by norm_num)
      (by norm_num)]
    refine List.map_congr_left fun i _ => ?_
    rw [Nat.zero_add]
  show makeSplinesGo cfg0 [.straight 10 (some fs)] ⟨⟨0, 0, 0⟩, Quat.identity, 0, 0⟩
    ⟨1, 0, 0⟩ = _
  simp only [makeSplinesGo]
  rw [hs]
  have h2 : 2 ≤ ((⟨(List.range 1000).map (mkStraightPt fs)⟩ : TrackSpline)).points.length := by
    simp
  obtain ⟨f', hf⟩ := Option.isSome_iff_exists.mp (forces_isSome_of_two_le _ h2)
  rw [hf]

/-- C5: on the concrete track whose anchor is at the origin with identity
orientation and whose only section is a Straight segment of length 10 with
fixed speed 5, the pre-decimation spline has strictly increasing
elapsed-time values, final position exactly `(0, 0, 10)` (within the
claimed 0.01 discretisation tolerance), and every point has speed exactly
5. -/
theorem c5_scenario :
    Track.makeSplines ctrack5 = some [fiveSpline] ∧
    (fiveSpline.points.map TrackPoint.time).Pairwise (· < ·) ∧
    fiveSpline.points.getLast?.map TrackPoint.pos = some ⟨0, 0, 10⟩ ∧
    ∀ q ∈ fiveSpline.points, q.velocity = 5 := by
  refine ⟨straight10_splines 5, ?_, ?_, ?_⟩
  · show ((((List.range 1000).map (mkStraightPt 5)).map TrackPoint.time)).Pairwise (· < ·)
    rw [List.map_map]
    refine List.Pairwise.map _ ?_ (List.pairwise_lt_range 1000)
    intro a b hab
    have hab' : (a : ℝ) < (b : ℝ) := by exact_mod_cast hab
    simp only [Function.comp_apply, mkStraightPt]
    rw [show (a : ℝ) / 100 / 5 = (a : ℝ) / 500 from by ring,
      show (b : ℝ) / 100 / 5 = (b : ℝ) / 500 from by ring]
    gcongr
  · show (((List.range 1000).map (mkStraightPt 5)).getLast?).map TrackPoint.pos =
      some ⟨0, 0, 10⟩
    rw [show (1000 : ℕ) = 999 + 1 from rfl, List.range_succ, List.map_append,
      List.map_singleton, List.getLast?_concat]
    simp only [Option.map_some, mkStraightPt]
    norm_num
  · intro q hq
    obtain ⟨i, _, rfl⟩ := List.mem_map.mp hq
    rfl

/-- C6 (counterexample): on the concrete track whose only section is a
Straight segment with fixed speed -5, assembly succeeds and the produced
spline contains a point of negative speed (`-5`), refuting "every
TrackPoint has speed ≥ 0" for tracks with arbitrary declared fixed
speeds. -/
theorem c6_counter :
    Track.makeSplines ctrackNeg = some [negSpline] ∧
    mkStraightPt (-5) 0 ∈ negSpline.points ∧ (mkStraightPt (-5) 0).velocity < 0 := by
  refine ⟨straight10_splines (-5), ?_, by norm_num [mkStraightPt]⟩
  exact List.mem_map.mpr ⟨0, List.mem_range.mpr (by norm_num), rfl⟩

theorem mem_of_getLast?_eq_some {l : List TrackPoint} {a : TrackPoint}
    (h : l.getLast? = some a) : a ∈ l := by
  obtain ⟨hne, hx⟩ := List.mem_getLast?_eq_getLast (x := a) (by rw [Option.mem_def, h])
  rw [hx]
  exact List.getLast_mem hne

theorem mem_ite_cons_aux {c : Prop} [Decidable c] {pt q : TrackPoint}
    {rest : List TrackPoint}
    (hq : q ∈ if c then ([] : List TrackPoint) else pt :: rest) :
    ¬c ∧ (q = pt ∨ q ∈ rest) := by
  by_cases h : c
  · rw [if_pos h] at hq
    exact absurd hq (List.not_mem_nil q)
  · rw [if_neg h] at hq
    exact ⟨h, List.mem_cons.mp hq⟩

theorem straightGo_inv (config : TrackConfig) (start : TrackPoint) (len : ℝ)
    (fixedSpeed : Option ℝ) (hfs : ∀ v ∈ fixedSpeed, 0 ≤ v)
    (prev : Option TrackPoint) (p : ℝ) (pos : Vec3) (vel : ℝ) (hp : 0 ≤ p) :
    ∀ q ∈ straightGo config start len fixedSpeed prev p pos vel,
      0 ≤ q.velocity ∧ start.time ≤ q.time := by
  intro q hq
  rw [straightGo] at hq
  by_cases h : p < len
  · rw [dif_pos h] at hq
    cases fixedSpeed with
    | some fs =>
        dsimp only at hq
        rcases List.mem_cons.mp hq with rfl | hq'
        · have h5 : 0 ≤ fs := hfs fs rfl
          refine ⟨h5, ?_⟩
          show start.time ≤ p / fs + start.time
          have := div_nonneg hp h5
          linarith
        · exact straightGo_inv config start len (some fs) hfs _ (p + 0.01) _ fs
            (by linarith) q hq'
    | none =>
        dsimp only at hq
        split at hq
        · exact absurd hq (List.not_mem_nil q)
        · rename_i hv
          rcases List.mem_cons.mp hq with rfl | hq'
          · have hv' := not_le.mp hv
            refine ⟨le_of_lt hv', ?_⟩
            show start.time ≤ p / _ + start.time
            have := div_nonneg hp (le_of_lt hv')
            linarith
          · exact straightGo_inv config start len none hfs _ (p + 0.01) _ _
              (by linarith) q hq'
  · rw [dif_neg h] at hq
    exact absurd hq (List.not_mem_nil q)
termination_by (⌈(len - p) / (0.01 : ℝ)⌉).toNat
decreasing_by
  all_goals
    have hx : 0 < (len - p) / (0.01 : ℝ) := div_pos (by linarith) (by norm_num)
    have he : (len - (p + 0.01)) / (0.01 : ℝ) = (len - p) / (0.01 : ℝ) - 1 := by ring
    have h1 : (1 : ℤ) ≤ ⌈(len - p) / (0.01 : ℝ)⌉ := Int.ceil_pos.mpr hx
    have h2 : ⌈(len - p) / (0.01 : ℝ) - 1⌉ = ⌈(len - p) / (0.01 : ℝ)⌉ - 1 := by
      exact_mod_cast Int.ceil_sub_int ((len - p) / (0.01 : ℝ)) 1
    rw [he]
    omega

theorem curvedGo_inv (config : TrackConfig) (start : TrackPoint) (fixedSpeed : Option ℝ)
    (hfs : ∀ v ∈ fixedSpeed, 0 ≤ v) (radius direction angleRad : ℝ)
    (prev : Option TrackPoint) (p : ℝ) (pos : Vec3) (vel : ℝ) (rot : Quat)
    (hp : 0 ≤ p) :
    ∀ q ∈ curvedGo config start fixedSpeed radius direction angleRad prev p pos vel
        rot hp, 0 ≤ q.velocity ∧ start.time ≤ q.time := by
  intro q hq
  rw [curvedGo] at hq
  by_cases h : p < angleRad * radius
  · rw [dif_pos h] at hq
    cases fixedSpeed with
    | some fs =>
        dsimp only at hq
        rcases List.mem_cons.mp hq with rfl | hq'
        · have h5 : 0 ≤ fs := hfs fs rfl
          refine ⟨h5, ?_⟩
          show start.time ≤ p / fs + start.time
          have := div_nonneg hp h5
          linarith
        · exact curvedGo_inv config start (some fs) hfs radius direction angleRad _ _ _
            fs _ _ q hq'
    | none =>
        dsimp only at hq
        split at hq
        · exact absurd hq (List.not_mem_nil q)
        · rename_i hv
          rcases List.mem_cons.mp hq with rfl | hq'
          · have hv' := not_le.mp hv
            refine ⟨le_of_lt hv', ?_⟩
            show start.time ≤ p / _ + start.time
            have := div_nonneg hp (le_of_lt hv')
            linarith
          · exact curvedGo_inv config start none hfs radius direction angleRad _ _ _
              _ _ _ q hq'
  · rw [dif_neg h] at hq
    exact absurd hq (List.not_mem_nil q)
termination_by (⌈(angleRad * radius - p) / (angleRad * radius / 200)⌉).toNat
decreasing_by
  all_goals
    have hb : 0 < angleRad * radius := lt_of_le_of_lt hp h
    have hdp : 0 < angleRad * radius / 200 := by positivity
    have hne : angleRad * radius ≠ 0 := ne_of_gt hb
    have hx : 0 < (angleRad * radius - p) / (angleRad * radius / 200) :=
      div_pos (by linarith) hdp
    have he : (angleRad * radius - (p + angleRad * radius / 200)) /
        (angleRad * radius / 200) =
        (angleRad * radius - p) / (angleRad * radius / 200) - 1 := by
      field_simp
      ring
    have h1 : (1 : ℤ) ≤ ⌈(angleRad * radius - p) / (angleRad * radius / 200)⌉ :=
      Int.ceil_pos.mpr hx
    have h2 : ⌈(angleRad * radius - p) / (angleRad * radius / 200) - 1⌉ =
        ⌈(angleRad * radius - p) / (angleRad * radius / 200)⌉ - 1 := by
      exact_mod_cast Int.ceil_sub_int
        ((angleRad * radius - p) / (angleRad * radius / 200)) 1
    rw [he]
    omega

theorem forceGo_inv (config : TrackConfig) (start : TrackPoint) (fixedSpeed : Option ℝ)
    (transitions : Transitions) (startForces : Forces) (prev : Option TrackPoint)
    (time : ℝ) (pos : Vec3) (rot : Quat) (vel : ℝ) (ht : 0 ≤ time) :
    ∀ q ∈ forceGo config start fixedSpeed transitions startForces prev time pos rot vel,
      0 ≤ q.velocity ∧ start.time ≤ q.time := by
  intro q hq
  rw [forceGo] at hq
  by_cases h : time < transitions.length
  · rw [dif_pos h] at hq
    cases fixedSpeed with
    | some fs =>
        dsimp only at hq
        split at hq
        all_goals try exact absurd hq (List.not_mem_nil q)
        split at hq
        all_goals try exact absurd hq (List.not_mem_nil q)
        obtain ⟨hv, hmem⟩ := mem_ite_cons_aux hq
        rcases hmem with rfl | hq'
        · have hv' := not_le.mp hv
          refine ⟨le_of_lt hv', ?_⟩
          show start.time ≤ time + start.time
          linarith
        · refine forceGo_inv config start (some fs) transitions startForces _
            (time + dtConst) _ _ _ ?_ q hq'
          have : 0 < dtConst := by norm_num [dtConst]
          linarith
    | none =>
        dsimp only at hq
        split at hq
        all_goals try exact absurd hq (List.not_mem_nil q)
        split at hq
        all_goals try exact absurd hq (List.not_mem_nil q)
        obtain ⟨hv, hmem⟩ := mem_ite_cons_aux hq
        rcases hmem with rfl | hq'
        · have hv' := not_le.mp hv
          refine ⟨le_of_lt hv', ?_⟩
          show start.time ≤ time + start.time
          linarith
        · refine forceGo_inv config start none transitions startForces _
            (time + dtConst) _ _ _ ?_ q hq'
          have : 0 < dtConst := by norm_num [dtConst]
          linarith
  · rw [dif_neg h] at hq
    exact absurd hq (List.not_mem_nil q)
termination_by (⌈(transitions.length - time) / dtConst⌉).toNat
decreasing_by
  all_goals
    have hdt : 0 < dtConst := by norm_num [dtConst]
    have hx : 0 < (transitions.length - time) / dtConst := div_pos (by linarith) hdt
    have he : (transitions.length - (time + dtConst)) / dtConst =
        (transitions.length - time) / dtConst - 1 := by
      field_simp
      ring
    have h1 : (1 : ℤ) ≤ ⌈(transitions.length - time) / dtConst⌉ := Int.ceil_pos.mpr hx
    have h2 : ⌈(transitions.length - time) / dtConst - 1⌉ =
        ⌈(transitions.length - time) / dtConst⌉ - 1 := by
      exact_mod_cast Int.ceil_sub_int ((transitions.length - time) / dtConst) 1
    rw [he]
    omega

theorem makeSpline_inv (config : TrackConfig) (sec : TrackSection)
    (hsec : sectionFixedOk sec) (start : TrackPoint) (f : Forces) :
    ∀ q ∈ (makeSpline config sec start f).points,
      0 ≤ q.velocity ∧ start.time ≤ q.time := by
  cases sec with
  | straight len fs =>
      intro q hq
      exact straightGo_inv config start len fs hsec none 0 start.pos start.velocity
        le_rfl q hq
  | force fs ts =>
      intro q hq
      exact forceGo_inv config start fs ts f none 0 start.pos start.rot
        (fs.getD start.velocity) le_rfl q hq
  | curved fs radius direction angle =>
      intro q hq
      exact curvedGo_inv config start fs hsec radius direction (toRadians angle) none 0
        start.pos start.velocity start.rot le_rfl q hq

theorem makeSplinesGo_inv (config : TrackConfig) (sections : List TrackSection) :
    ∀ (pt : TrackPoint) (fs : Forces) (ss : List TrackSpline),
      (∀ sec ∈ sections, sectionFixedOk sec) → 0 ≤ pt.time →
      makeSplinesGo config sections pt fs = some ss →
      ∀ s ∈ ss, ∀ q ∈ s.points, 0 ≤ q.velocity ∧ 0 ≤ q.time := by
  induction sections with
  | nil =>
      intro pt fs ss _ _ h s hs
      rw [makeSplinesGo] at h
      injection h with h
      subst h
      exact absurd hs (List.not_mem_nil s)
  | cons sec rest ih =>
      intro pt fs ss hsec hpt h
      rw [makeSplinesGo] at h
      rcases hf : (makeSpline config sec pt fs).forces
          ((makeSpline config sec pt fs).totalDistance - 0.005) with _ | f'
      · rw [hf] at h
        cases h
      · rw [hf] at h
        have hsplineP : ∀ q ∈ (makeSpline config sec pt fs).points,
            0 ≤ q.velocity ∧ 0 ≤ q.time := fun q hq =>
          ⟨(makeSpline_inv config sec (hsec sec (List.mem_cons_self sec rest)) pt fs q hq).1,
            le_trans hpt (makeSpline_inv config sec (hsec sec (List.mem_cons_self sec rest))
              pt fs q hq).2⟩
        cases rest with
        | nil =>
            dsimp only at h
            injection h with h
            subst h
            intro s hs q hq
            rcases List.mem_cons.mp hs with rfl | hs'
            · exact hsplineP q hq
            · exact absurd hs' (List.not_mem_nil s)
        | cons sec2 rest2 =>
            dsimp only at h
            rcases hlast : (makeSpline config sec pt fs).points.getLast? with _ | lastPt
            · rw [hlast] at h
              cases h
            · rw [hlast] at h
              dsimp only at h
              rcases hrec : makeSplinesGo config (sec2 :: rest2) lastPt f' with _ | ss'
              · rw [hrec] at h
                cases h
              · rw [hrec] at h
                injection h with h
                subst h
                have hltime : 0 ≤ lastPt.time :=
                  (hsplineP lastPt (mem_of_getLast?_eq_some hlast)).2
                intro s hs q hq
                rcases List.mem_cons.mp hs with rfl | hs'
                · exact hsplineP q hq
                · exact ih lastPt f' ss'
                    (fun x hx => hsec x (List.mem_cons_of_mem _ hx)) hltime hrec s hs' q hq

/-- C6 (amended): for every Track all of whose sections' declared
`fixed_speed` values are nonnegative, every TrackPoint in every spline
produced by a successful `make_splines` has speed ≥ 0 and elapsed time
≥ 0.  (Without the nonnegativity restriction the claim fails: a negative
declared fixed speed is copied verbatim into the points, see the
counterexample.) -/
theorem c6_nonneg (t : Track) (ss : List TrackSpline)
    (hsec : ∀ sec ∈ t.sections, sectionFixedOk sec)
    (h : t.makeSplines = some ss) :
    ∀ s ∈ ss, ∀ q ∈ s.points, 0 ≤ q.velocity ∧ 0 ≤ q.time :=
  makeSplinesGo_inv t.config t.sections _ ⟨1, 0, 0⟩ ss hsec le_rfl h

/-- C6 (witness): the amended theorem applied to the concrete fixed-speed-5
track and the first point of its (successfully assembled) spline. -/
theorem c6_nonneg_witness :
    0 ≤ (mkStraightPt 5 0).velocity ∧ 0 ≤ (mkStraightPt 5 0).time := by
  have hsec : ∀ sec ∈ ctrack5.sections, sectionFixedOk sec := by
    intro sec hs
    simp only [ctrack5, List.mem_singleton] at hs
    subst hs
    intro v hv
    simp only [Option.mem_def, Option.some.injEq] at hv
    subst hv
    norm_num
  exact c6_nonneg ctrack5 [fiveSpline] hsec (straight10_splines 5) fiveSpline
    (List.mem_singleton.mpr rfl) (mkStraightPt 5 0)
    (List.mem_map.mpr ⟨0, List.mem_range.mpr (by norm_num), rfl⟩)

end Fvd
